import Mathlib

/-!
# colt: generic collection with hook chains

A shallow embedding of `collection.go`.  Go pointers are turned into explicit
state passing: a callback that receives `*bson.M` (or a record with pointer
receiver methods) is a function returning the value it leaves behind together
with its `error`.  A Go `error` is `Option GoError` (`none` is `nil`).  Every
operation returns what the Go function returns (or the fact that it panicked)
together with the ordered log of the calls it made to hooks and to the store.
-/

namespace Colt

/-! ## Values of the Go runtime -/

/-- Go `error` value; `errors.New s` is `GoError.mk s`. -/
structure GoError where
  msg : String
deriving DecidableEq, Repr

/-- Go `errors.New`. -/
def errorsNew (s : String) : GoError := ⟨s⟩

/-- Values of `primitive.ObjectID`, the Go array type `[12]byte`. -/
structure ObjectID where
  bytes : List (Fin 256)
  size : bytes.length = 12

/-- Lower-case hexadecimal digit of a nibble, as `encoding/hex` writes it. -/
def hexDigit (n : Nat) : Char :=
  "0123456789abcdef".toList.getD n '0'

/-- Modelled from the spec: `primitive.ObjectID.Hex` of the driver library, the
"hex-encoded" text of the identifier, two digits for each of the twelve bytes. -/
def ObjectID.Hex (id : ObjectID) : String :=
  String.mk (id.bytes.flatMap fun b => [hexDigit (b.val / 16), hexDigit (b.val % 16)])

/-- Dynamic values of type `interface{}` that the code inspects. -/
inductive Iface (T : Type) where
  | nil
  | str (s : String)
  | int (i : Int)
  | objectID (bytes : List (Fin 256))
  | model (m : T)
deriving DecidableEq

/-- The Go type `bson.M`, a `map[string]interface{}`, as an association list. -/
abbrev M (T : Type) := List (String × Iface T)

/-- Map assignment `m[k] = v`. -/
def M.set {T : Type} (m : M T) (k : String) (v : Iface T) : M T :=
  (k, v) :: m.filter fun kv => kv.1 != k

/-! ## Record contract -/

/-- The methods of a record type `T`: the mandatory `GetID`/`SetID` of the
`Document` constraint, and the two optional capabilities found by the runtime
type assertions `any(model).(BeforeInsertHook)` and
`any(model).(BeforeUpdateHook)` (`none` when `T` lacks the method).  A method
with pointer receiver returns the record as it leaves it. -/
structure Document (T : Type) where
  GetID : T → String
  SetID : String → T → T
  BeforeInsert : Option (T → T × Option GoError)
  BeforeUpdate : Option (T → T × Option GoError)
  /-- The value of `var target T`. -/
  zero : T

/-- Modelled from the spec: the identity contract of `Document` implementations
(their declaration is outside the given sources): `GetID` reads what `SetID`
stored. -/
def Document.Lawful {T : Type} (d : Document T) : Prop :=
  ∀ (s : String) (m : T), d.GetID (d.SetID s m) = s

/-! ## Store collaborator -/

/-- The driver type `mongo.InsertOneResult`. -/
structure InsertOneResult (T : Type) where
  InsertedID : Iface T
deriving DecidableEq

/-- The driver type `mongo.UpdateResult`. -/
structure UpdateResult where
  MatchedCount : Int
  ModifiedCount : Int
deriving DecidableEq

/-- The driver type `mongo.DeleteResult`. -/
structure DeleteResult where
  DeletedCount : Int
deriving DecidableEq

/-- The driver type `mongo.SingleResult`; `Decode` maps the target it is given
to the target it leaves, with its error. -/
structure SingleResult (T : Type) where
  Decode : T → T × Option GoError

/-- The driver type `mongo.Cursor`; `All` maps the slice it is given to the
slice it leaves, with its error. -/
structure Cursor (T : Type) where
  All : List T → List T × Option GoError

/-- The answers of `*mongo.Collection`.  A result of pointer type is an `Option`
(`none` is the nil pointer); every answer is a pair as in Go. -/
structure MongoCollection (T : Type) where
  InsertOne : T → Option (InsertOneResult T) × Option GoError
  UpdateOne : M T → M T → Option UpdateResult × Option GoError
  UpdateMany : M T → M T → Option UpdateResult × Option GoError
  DeleteOne : M T → Option DeleteResult × Option GoError
  FindOne : M T → SingleResult T
  Find : M T → Option (Cursor T) × Option GoError
  CountDocuments : M T → Int × Option GoError

/-! ## Observable calls -/

/-- One entry of the call log of an operation: a chain hook (with its position
in the chain and the arguments it receives), a lifecycle hook (with the record
it receives), or a call to the store (with the arguments it receives). -/
inductive Event (T : Type) where
  | deleteOneHook (idx : Nat) (filter : M T)
  | updateOneHook (idx : Nat) (arg : M T × T)
  | updateManyHook (idx : Nat) (arg : M T × M T)
  | findOneHook (idx : Nat) (filter : M T)
  | findHook (idx : Nat) (filter : M T)
  | countHook (idx : Nat) (filter : M T)
  | beforeInsert (model : T)
  | beforeUpdate (model : T)
  | storeInsertOne (model : T)
  | storeUpdateOne (filter : M T) (update : M T)
  | storeUpdateMany (filter : M T) (update : M T)
  | storeDeleteOne (filter : M T)
  | storeFindOne (filter : M T)
  | singleResultDecode
  | storeFind (filter : M T)
  | cursorAll
  | storeCountDocuments (filter : M T)
deriving DecidableEq

/-- How a Go call ends: it returns its value and its `error`, or it panics. -/
inductive Outcome (R : Type) where
  | ret (val : R) (err : Option GoError)
  | panic
deriving DecidableEq

/-- The end of a call together with the calls it made, oldest first. -/
structure Exec (R T : Type) where
  out : Outcome R
  trace : List (Event T)
deriving DecidableEq

/-! ## Hook registry -/

/-- The struct `Hooks[T]`. -/
structure Hooks (T : Type) where
  deleteOne : List (M T → M T × Option GoError)
  updateOne : List (M T × T → (M T × T) × Option GoError)
  updateMany : List (M T × M T → (M T × M T) × Option GoError)
  findOne : List (M T → M T × Option GoError)
  find : List (M T → M T × Option GoError)
  count : List (M T → M T × Option GoError)

def Hooks.OnDeleteOne {T : Type} (hooks : Hooks T)
    (callback : M T → M T × Option GoError) : Hooks T :=
  { hooks with deleteOne := hooks.deleteOne ++ [callback] }

def Hooks.OnUpdateOne {T : Type} (hooks : Hooks T)
    (callback : M T × T → (M T × T) × Option GoError) : Hooks T :=
  { hooks with updateOne := hooks.updateOne ++ [callback] }

def Hooks.OnUpdateMany {T : Type} (hooks : Hooks T)
    (callback : M T × M T → (M T × M T) × Option GoError) : Hooks T :=
  { hooks with updateMany := hooks.updateMany ++ [callback] }

def Hooks.OnFindOne {T : Type} (hooks : Hooks T)
    (callback : M T → M T × Option GoError) : Hooks T :=
  { hooks with findOne := hooks.findOne ++ [callback] }

def Hooks.OnFind {T : Type} (hooks : Hooks T)
    (callback : M T → M T × Option GoError) : Hooks T :=
  { hooks with find := hooks.find ++ [callback] }

def Hooks.OnCount {T : Type} (hooks : Hooks T)
    (callback : M T → M T × Option GoError) : Hooks T :=
  { hooks with count := hooks.count ++ [callback] }

/-- The struct `Collection[T]`, with the method set of `T`. -/
structure Collection (T : Type) where
  doc : Document T
  collection : MongoCollection T
  BeforeHooks : Hooks T

/-- The loop shared by the six chain-bearing operations,
`for _, hook := range chain { if err := hook(&x); err != nil { return err } }`:
it yields the arguments as the hooks left them, the error that ended the loop
(`none` when the loop ran to its end) and the hook calls made.  `idx` is the
position of the head of `chain` in the registered chain. -/
def runChain {S T : Type} (mk : Nat → S → Event T) :
    List (S → S × Option GoError) → Nat → S → S × Option GoError × List (Event T)
  | [], _, s => (s, none, [])
  | hook :: rest, idx, s =>
    match hook s with
    | (s1, some err) => (s1, some err, [mk idx s])
    | (s1, none) =>
      let r := runChain mk rest (idx + 1) s1
      (r.1, r.2.1, mk idx s :: r.2.2)

/-- The method `NewId`: `fresh` is the value `primitive.NewObjectID()` draws. -/
def Collection.NewId {T : Type} (_repo : Collection T) (fresh : ObjectID) : ObjectID :=
  fresh

/-- Lines 60 to 62 of `Insert`: the store call, the type assertion on the
identifier the store reports, and the return.  `res.InsertedID` dereferences
`res` before `err` is looked at, and `.(string)` is an assertion without the
`ok` form. -/
def Collection.insertStore {T : Type} (repo : Collection T) (model : T)
    (log : List (Event T)) : Exec T T :=
  match repo.collection.InsertOne model with
  | (none, _) => ⟨Outcome.panic, log ++ [Event.storeInsertOne model]⟩
  | (some res, err) =>
    match res.InsertedID with
    | Iface.str id =>
      ⟨Outcome.ret (repo.doc.SetID id model) err, log ++ [Event.storeInsertOne model]⟩
    | _ => ⟨Outcome.panic, log ++ [Event.storeInsertOne model]⟩

/-- The method `Insert`; `fresh` is the identifier `NewId` would draw. -/
def Collection.Insert {T : Type} (repo : Collection T) (fresh : ObjectID) (model : T) :
    Exec T T :=
  let model :=
    if repo.doc.GetID model = "" then repo.doc.SetID (repo.NewId fresh).Hex model else model
  match repo.doc.BeforeInsert with
  | some hook =>
    match hook model with
    | (model1, some err) => ⟨Outcome.ret model1 (some err), [Event.beforeInsert model]⟩
    | (model1, none) => repo.insertStore model1 [Event.beforeInsert model]
  | none => repo.insertStore model []

/-- Lines 76 to 83 of `UpdateOne`: the lifecycle hook and the store call. -/
def Collection.updateStore {T : Type} (repo : Collection T) (filter : M T) (model : T)
    (log : List (Event T)) : Exec Unit T :=
  match repo.doc.BeforeUpdate with
  | some hook =>
    match hook model with
    | (_, some err) => ⟨Outcome.ret () (some err), log ++ [Event.beforeUpdate model]⟩
    | (model1, none) =>
      ⟨Outcome.ret () (repo.collection.UpdateOne filter [("$set", Iface.model model1)]).2,
        log ++ [Event.beforeUpdate model,
          Event.storeUpdateOne filter [("$set", Iface.model model1)]]⟩
  | none =>
    ⟨Outcome.ret () (repo.collection.UpdateOne filter [("$set", Iface.model model)]).2,
      log ++ [Event.storeUpdateOne filter [("$set", Iface.model model)]]⟩

/-- The method `UpdateOne`. -/
def Collection.UpdateOne {T : Type} (repo : Collection T) (filter : M T) (model : T) :
    Exec Unit T :=
  match runChain Event.updateOneHook repo.BeforeHooks.updateOne 0 (filter, model) with
  | (_, some err, log) => ⟨Outcome.ret () (some err), log⟩
  | (arg, none, log) => repo.updateStore arg.1 arg.2 log

/-- The method `UpdateById`. -/
def Collection.UpdateById {T : Type} (repo : Collection T) (id : String) (model : T) :
    Exec Unit T :=
  repo.UpdateOne [("_id", Iface.str id)] model

/-- The method `UpdateMany`. -/
def Collection.UpdateMany {T : Type} (repo : Collection T) (filter : M T) (doc : M T) :
    Exec Unit T :=
  match runChain Event.updateManyHook repo.BeforeHooks.updateMany 0 (filter, doc) with
  | (_, some err, log) => ⟨Outcome.ret () (some err), log⟩
  | (arg, none, log) =>
    ⟨Outcome.ret () (repo.collection.UpdateMany arg.1 arg.2).2,
      log ++ [Event.storeUpdateMany arg.1 arg.2]⟩

/-- The method `DeleteOne`. -/
def Collection.DeleteOne {T : Type} (repo : Collection T) (filter : M T) : Exec Unit T :=
  match runChain Event.deleteOneHook repo.BeforeHooks.deleteOne 0 filter with
  | (_, some err, log) => ⟨Outcome.ret () (some err), log⟩
  | (filter, none, log) =>
    match repo.collection.DeleteOne filter with
    | (_, some err) => ⟨Outcome.ret () (some err), log ++ [Event.storeDeleteOne filter]⟩
    | (none, none) => ⟨Outcome.panic, log ++ [Event.storeDeleteOne filter]⟩
    | (some res, none) =>
      if res.DeletedCount < 1 then
        ⟨Outcome.ret () (some (errorsNew "could not delete")),
          log ++ [Event.storeDeleteOne filter]⟩
      else
        ⟨Outcome.ret () none, log ++ [Event.storeDeleteOne filter]⟩

/-- The method `DeleteById`. -/
def Collection.DeleteById {T : Type} (repo : Collection T) (id : String) : Exec Unit T :=
  repo.DeleteOne [("_id", Iface.str id)]

/-- The method `FindOne`. -/
def Collection.FindOne {T : Type} (repo : Collection T) (filter : M T) : Exec T T :=
  let target := repo.doc.zero
  match runChain Event.findOneHook repo.BeforeHooks.findOne 0 filter with
  | (_, some err, log) => ⟨Outcome.ret target (some err), log⟩
  | (filter, none, log) =>
    let r := (repo.collection.FindOne filter).Decode target
    ⟨Outcome.ret r.1 r.2, log ++ [Event.storeFindOne filter, Event.singleResultDecode]⟩

/-- The method `FindById`. -/
def Collection.FindById {T : Type} (repo : Collection T) (id : String) : Exec T T :=
  repo.FindOne [("_id", Iface.str id)]

/-- The method `Find` (the find options are handed to the store untouched and
are left out).  The `err` of the store call is overwritten by the result of
`csr.All` before it is read, and `csr.All` is called on whatever cursor the
store call gave: a nil cursor makes it panic. -/
def Collection.Find {T : Type} (repo : Collection T) (filter : M T) : Exec (List T) T :=
  let result : List T := []
  match runChain Event.findHook repo.BeforeHooks.find 0 filter with
  | (_, some err, log) => ⟨Outcome.ret result (some err), log⟩
  | (filter, none, log) =>
    match repo.collection.Find filter with
    | (none, _) => ⟨Outcome.panic, log ++ [Event.storeFind filter, Event.cursorAll]⟩
    | (some csr, _) =>
      match csr.All result with
      | (_, some err) =>
        ⟨Outcome.ret [] (some err), log ++ [Event.storeFind filter, Event.cursorAll]⟩
      | (result, none) =>
        ⟨Outcome.ret result none, log ++ [Event.storeFind filter, Event.cursorAll]⟩

/-- The method `CountDocuments`. -/
def Collection.CountDocuments {T : Type} (repo : Collection T) (filter : M T) : Exec Int T :=
  match runChain Event.countHook repo.BeforeHooks.count 0 filter with
  | (_, some err, log) => ⟨Outcome.ret 0 (some err), log⟩
  | (filter, none, log) =>
    let r := repo.collection.CountDocuments filter
    ⟨Outcome.ret r.1 r.2, log ++ [Event.storeCountDocuments filter]⟩

/-! ## Vocabulary of the specification -/

/-- The arguments each hook of a chain receives when every hook is handed what
its predecessor left: the first receives `s`. -/
def argsSeen {S : Type} : List (S → S × Option GoError) → S → List S
  | [], _ => []
  | hook :: rest, s => s :: argsSeen rest (hook s).1

/-- The error each hook of a chain returns on the arguments of `argsSeen`. -/
def verdicts {S : Type} : List (S → S × Option GoError) → S → List (Option GoError)
  | [], _ => []
  | hook :: rest, s => (hook s).2 :: verdicts rest (hook s).1

/-- The arguments as the last hook of the chain leaves them. -/
def argsLeft {S : Type} : List (S → S × Option GoError) → S → S
  | [], s => s
  | hook :: rest, s => argsLeft rest (hook s).1

/-- Hook calls at consecutive positions from `idx` on, one for each argument. -/
def hookCalls {S T : Type} (mk : Nat → S → Event T) : Nat → List S → List (Event T)
  | _, [] => []
  | idx, a :: rest => mk idx a :: hookCalls mk (idx + 1) rest

/-- The hook at position `k` is the first of the chain to return a failure, and
that failure is `e`. -/
def FirstFailure {S : Type} (chain : List (S → S × Option GoError)) (s : S) (k : Nat)
    (e : GoError) : Prop :=
  (verdicts chain s)[k]? = some (some e) ∧ ∀ i, i < k → (verdicts chain s)[i]? = some none

/-- Every hook of the chain returns nil. -/
def AllSucceed {S : Type} (chain : List (S → S × Option GoError)) (s : S) : Prop :=
  ∀ v, v ∈ verdicts chain s → v = none

/-- The record after the identifier assignment that opens `Insert`: a record
arriving without identifier carries the freshly drawn one, any other record is
untouched. -/
def assignedRecord {T : Type} (d : Document T) (fresh : ObjectID) (model : T) : T :=
  if d.GetID model = "" then d.SetID fresh.Hex model else model

/-! ## Fixtures of the test files -/

/-- The record type of the tests, reduced to its identifier and its title. -/
structure TestDoc where
  ID : String
  Title : String
deriving DecidableEq

/-- The method set of the test record with the given lifecycle hooks. -/
def testDocument (beforeInsert beforeUpdate : Option (TestDoc → TestDoc × Option GoError)) :
    Document TestDoc where
  GetID := fun d => d.ID
  SetID := fun s d => { d with ID := s }
  BeforeInsert := beforeInsert
  BeforeUpdate := beforeUpdate
  zero := ⟨"", ""⟩

/-- The store that accepts every call: an insert reports the `_id` of the
record it was handed, a delete reports `deleted` records. -/
def okStore (deleted : Int) : MongoCollection TestDoc where
  InsertOne := fun m => (some ⟨Iface.str m.ID⟩, none)
  UpdateOne := fun _ _ => (some ⟨0, 0⟩, none)
  UpdateMany := fun _ _ => (some ⟨0, 0⟩, none)
  DeleteOne := fun _ => (some ⟨deleted⟩, none)
  FindOne := fun _ => ⟨fun t => (t, none)⟩
  Find := fun _ => (some ⟨fun r => (r, none)⟩, none)
  CountDocuments := fun _ => (1, none)

/-- Twelve bytes as `primitive.NewObjectID` may draw them. -/
def sampleBytes : List (Fin 256) :=
  [101, 74, 18, 239, 0, 17, 34, 51, 68, 85, 102, 119]

/-- The store that accepts every call and reports, for an insert, an `_id` it
generated itself as an `ObjectID`, as the driver does for a document that
carries no `_id` of its own. -/
def mintingStore : MongoCollection TestDoc where
  InsertOne := fun _ => (some ⟨Iface.objectID sampleBytes⟩, none)
  UpdateOne := fun _ _ => (some ⟨0, 0⟩, none)
  UpdateMany := fun _ _ => (some ⟨0, 0⟩, none)
  DeleteOne := fun _ => (some ⟨1⟩, none)
  FindOne := fun _ => ⟨fun t => (t, none)⟩
  Find := fun _ => (some ⟨fun r => (r, none)⟩, none)
  CountDocuments := fun _ => (1, none)

/-- The store whose every call fails with `e`, answering as the driver does on
a failed command: a nil result next to the error. -/
def downStore (e : GoError) : MongoCollection TestDoc where
  InsertOne := fun _ => (none, some e)
  UpdateOne := fun _ _ => (none, some e)
  UpdateMany := fun _ _ => (none, some e)
  DeleteOne := fun _ => (none, some e)
  FindOne := fun _ => ⟨fun t => (t, some e)⟩
  Find := fun _ => (none, some e)
  CountDocuments := fun _ => (0, some e)

/-- The empty registry. -/
def noHooks : Hooks TestDoc :=
  ⟨[], [], [], [], [], []⟩

/-- First hook of `TestCollection_OnFind`: it rewrites `_id` to `secondId`. -/
def rewriteHook : M TestDoc → M TestDoc × Option GoError :=
  fun filter => (M.set filter "_id" (Iface.str "secondId"), none)

/-- Second hook of `TestCollection_OnFind`: it only looks at the filter. -/
def idleHook : M TestDoc → M TestDoc × Option GoError :=
  fun filter => (filter, none)

/-- The hook of `TestCollection_OnFind_Error`. -/
def failingHook : M TestDoc → M TestDoc × Option GoError :=
  fun filter => (filter, some (errorsNew "Hook failing"))

/-- The filter `bson.M{"_id": "firstId"}` of the tests. -/
def firstIdFilter : M TestDoc :=
  [("_id", Iface.str "firstId")]

/-- A collection of test records without lifecycle hooks over the accepting
store, with the same chain registered for the three read operations. -/
def readRepo (chain : List (M TestDoc → M TestDoc × Option GoError)) : Collection TestDoc where
  doc := testDocument none none
  collection := okStore 1
  BeforeHooks := { noHooks with find := chain, findOne := chain, count := chain }

/-- An identifier as `primitive.NewObjectID` may draw it. -/
def sampleID : ObjectID :=
  ⟨sampleBytes, rfl⟩

/-- The text `sampleID.Hex` stands for. -/
def sampleHex : String :=
  "654a12ef0011223344556677"

/-- A `BeforeInsert` that takes the title as identifier and refuses a record
without title. -/
def slugInsert : TestDoc → TestDoc × Option GoError :=
  fun d => ({ d with ID := d.Title },
    if d.Title = "" then some (errorsNew "title required") else none)

/-- A `BeforeInsert` that clears the identifier and refuses the record. -/
def rejectInsert : TestDoc → TestDoc × Option GoError :=
  fun d => ({ d with ID := "" }, some (errorsNew "rejected"))

/-- A `BeforeInsert` that clears the identifier and accepts the record. -/
def draftInsert : TestDoc → TestDoc × Option GoError :=
  fun d => ({ d with ID := "" }, none)

/-- A `BeforeInsert` that marks the title, leaves the identifier and accepts
the record. -/
def stampInsert : TestDoc → TestDoc × Option GoError :=
  fun d => ({ d with Title := d.Title ++ "!" }, none)

/-- A `BeforeInsert` that leaves the record as it is and refuses it. -/
def refuseInsert : TestDoc → TestDoc × Option GoError :=
  fun d => (d, some (errorsNew "refused"))

/-- A `BeforeUpdate` that marks the title and accepts the record. -/
def stampUpdate : TestDoc → TestDoc × Option GoError :=
  fun d => ({ d with Title := d.Title ++ "+" }, none)

/-- An updateOne hook that narrows the filter and accepts. -/
def scopeHook : M TestDoc × TestDoc → (M TestDoc × TestDoc) × Option GoError :=
  fun a => ((M.set a.1 "tenant" (Iface.str "acme"), a.2), none)

/-- A collection of test records with the given `BeforeInsert` over the given
store, without chain hooks. -/
def insertRepo (beforeInsert : Option (TestDoc → TestDoc × Option GoError))
    (store : MongoCollection TestDoc) : Collection TestDoc where
  doc := testDocument beforeInsert none
  collection := store
  BeforeHooks := noHooks

/-- A collection of test records with `stampUpdate` as `BeforeUpdate` and
`scopeHook` as its updateOne chain, over the accepting store. -/
def updateRepo : Collection TestDoc where
  doc := testDocument none (some stampUpdate)
  collection := okStore 1
  BeforeHooks := { noHooks with updateOne := [scopeHook] }

/-! ## The chain loop -/

theorem runChain_of_firstFailure {S T : Type} (mk : Nat → S → Event T)
    (chain : List (S → S × Option GoError)) :
    ∀ (idx : Nat) (s : S) (k : Nat) (e : GoError), FirstFailure chain s k e →
      (runChain mk chain idx s).2 =
        (some e, hookCalls mk idx ((argsSeen chain s).take (k + 1))) := by
  induction chain with
  | nil =>
    intro idx s k e h
    simp [FirstFailure, verdicts] at h
  | cons hook rest ih =>
    intro idx s k e h
    obtain ⟨hk, hlt⟩ := h
    cases k with
    | zero =>
      have h0 : (hook s).2 = some e := by simpa [verdicts] using hk
      rcases hs : hook s with ⟨s1, v⟩
      rw [hs] at h0
      simp only at h0
      subst h0
      simp [runChain, hs, argsSeen, hookCalls]
    | succ j =>
      have h0 : (hook s).2 = none := by simpa [verdicts] using hlt 0 (Nat.succ_pos j)
      have hrest : FirstFailure rest (hook s).1 j e := by
        refine ⟨by simpa [verdicts] using hk, ?_⟩
        intro i hi
        simpa [verdicts] using hlt (i + 1) (Nat.succ_lt_succ hi)
      rcases hs : hook s with ⟨s1, v⟩
      rw [hs] at h0 hrest
      simp only at h0 hrest
      subst h0
      have := ih (idx + 1) s1 j e hrest
      simp [runChain, hs, argsSeen, hookCalls, this]

theorem runChain_of_allSucceed {S T : Type} (mk : Nat → S → Event T)
    (chain : List (S → S × Option GoError)) :
    ∀ (idx : Nat) (s : S), AllSucceed chain s →
      runChain mk chain idx s = (argsLeft chain s, none, hookCalls mk idx (argsSeen chain s)) := by
  induction chain with
  | nil =>
    intro idx s _
    simp [runChain, argsLeft, argsSeen, hookCalls]
  | cons hook rest ih =>
    intro idx s h
    have h0 : (hook s).2 = none := h _ (by simp [verdicts])
    have hrest : AllSucceed rest (hook s).1 := by
      intro v hv
      exact h v (by simp [verdicts, hv])
    rcases hs : hook s with ⟨s1, v⟩
    rw [hs] at h0 hrest
    simp only at h0 hrest
    subst h0
    have := ih (idx + 1) s1 hrest
    simp [runChain, hs, argsLeft, argsSeen, hookCalls, this]

theorem allSucceed_of_runChain {S T : Type} (mk : Nat → S → Event T)
    (chain : List (S → S × Option GoError)) :
    ∀ (idx : Nat) (s : S), (runChain mk chain idx s).2.1 = none → AllSucceed chain s := by
  induction chain with
  | nil =>
    intro idx s _ v hv
    simp [verdicts] at hv
  | cons hook rest ih =>
    intro idx s h v hv
    rcases hs : hook s with ⟨s1, w⟩
    cases w with
    | some err => simp [runChain, hs] at h
    | none =>
      simp only [runChain, hs] at h
      have hrest := ih (idx + 1) s1 h
      simp only [verdicts, hs, List.mem_cons] at hv
      rcases hv with hv | hv
      · exact hv
      · exact hrest v hv


/-! ## Failing chains -/

/-- C1: in each of the six chain-bearing operations, when the hook at position
`k` is the first to return a failure `e`, the operation returns exactly `e` and
its call log consists of the calls of the hooks at positions `0..k`, once each,
in registration order, each on the arguments its predecessor left: no later
hook, no `BeforeUpdate` and no store call is in the log. -/
theorem first_failure_stops_every_operation {T : Type} (repo : Collection T) (k : Nat)
    (e : GoError) :
    (∀ filter, FirstFailure repo.BeforeHooks.deleteOne filter k e →
      repo.DeleteOne filter =
        ⟨Outcome.ret () (some e), hookCalls Event.deleteOneHook 0
          ((argsSeen repo.BeforeHooks.deleteOne filter).take (k + 1))⟩) ∧
    (∀ filter model, FirstFailure repo.BeforeHooks.updateOne (filter, model) k e →
      repo.UpdateOne filter model =
        ⟨Outcome.ret () (some e), hookCalls Event.updateOneHook 0
          ((argsSeen repo.BeforeHooks.updateOne (filter, model)).take (k + 1))⟩) ∧
    (∀ filter doc, FirstFailure repo.BeforeHooks.updateMany (filter, doc) k e →
      repo.UpdateMany filter doc =
        ⟨Outcome.ret () (some e), hookCalls Event.updateManyHook 0
          ((argsSeen repo.BeforeHooks.updateMany (filter, doc)).take (k + 1))⟩) ∧
    (∀ filter, FirstFailure repo.BeforeHooks.findOne filter k e →
      repo.FindOne filter =
        ⟨Outcome.ret repo.doc.zero (some e), hookCalls Event.findOneHook 0
          ((argsSeen repo.BeforeHooks.findOne filter).take (k + 1))⟩) ∧
    (∀ filter, FirstFailure repo.BeforeHooks.find filter k e →
      repo.Find filter =
        ⟨Outcome.ret [] (some e), hookCalls Event.findHook 0
          ((argsSeen repo.BeforeHooks.find filter).take (k + 1))⟩) ∧
    (∀ filter, FirstFailure repo.BeforeHooks.count filter k e →
      repo.CountDocuments filter =
        ⟨Outcome.ret 0 (some e), hookCalls Event.countHook 0
          ((argsSeen repo.BeforeHooks.count filter).take (k + 1))⟩) := by
  refine ⟨?_, ?_, ?_, ?_, ?_, ?_⟩
  · intro filter h
    have hr := runChain_of_firstFailure Event.deleteOneHook _ 0 filter k e h
    rcases hc : runChain Event.deleteOneHook repo.BeforeHooks.deleteOne 0 filter with ⟨s1, err, log⟩
    rw [hc] at hr
    simp only [Prod.mk.injEq] at hr
    obtain ⟨rfl, rfl⟩ := hr
    simp [Collection.DeleteOne, hc]
  · intro filter model h
    have hr := runChain_of_firstFailure Event.updateOneHook _ 0 (filter, model) k e h
    rcases hc : runChain Event.updateOneHook repo.BeforeHooks.updateOne 0 (filter, model)
      with ⟨s1, err, log⟩
    rw [hc] at hr
    simp only [Prod.mk.injEq] at hr
    obtain ⟨rfl, rfl⟩ := hr
    simp [Collection.UpdateOne, hc]
  · intro filter doc h
    have hr := runChain_of_firstFailure Event.updateManyHook _ 0 (filter, doc) k e h
    rcases hc : runChain Event.updateManyHook repo.BeforeHooks.updateMany 0 (filter, doc)
      with ⟨s1, err, log⟩
    rw [hc] at hr
    simp only [Prod.mk.injEq] at hr
    obtain ⟨rfl, rfl⟩ := hr
    simp [Collection.UpdateMany, hc]
  · intro filter h
    have hr := runChain_of_firstFailure Event.findOneHook _ 0 filter k e h
    rcases hc : runChain Event.findOneHook repo.BeforeHooks.findOne 0 filter with ⟨s1, err, log⟩
    rw [hc] at hr
    simp only [Prod.mk.injEq] at hr
    obtain ⟨rfl, rfl⟩ := hr
    simp [Collection.FindOne, hc]
  · intro filter h
    have hr := runChain_of_firstFailure Event.findHook _ 0 filter k e h
    rcases hc : runChain Event.findHook repo.BeforeHooks.find 0 filter with ⟨s1, err, log⟩
    rw [hc] at hr
    simp only [Prod.mk.injEq] at hr
    obtain ⟨rfl, rfl⟩ := hr
    simp [Collection.Find, hc]
  · intro filter h
    have hr := runChain_of_firstFailure Event.countHook _ 0 filter k e h
    rcases hc : runChain Event.countHook repo.BeforeHooks.count 0 filter with ⟨s1, err, log⟩
    rw [hc] at hr
    simp only [Prod.mk.injEq] at hr
    obtain ⟨rfl, rfl⟩ := hr
    simp [Collection.CountDocuments, hc]

/-- C1 at the chain `[rewriteHook, failingHook, idleHook]` of the read operations:
the hook at position 1 is the first to fail; `Find` logs the calls of positions
0 and 1 only and returns the error of the hook. -/
theorem first_failure_stops_every_operation_witness :
    FirstFailure (readRepo [rewriteHook, failingHook, idleHook]).BeforeHooks.find
        firstIdFilter 1 (errorsNew "Hook failing") ∧
      (readRepo [rewriteHook, failingHook, idleHook]).Find firstIdFilter =
        ⟨Outcome.ret [] (some (errorsNew "Hook failing")),
          [Event.findHook 0 [("_id", Iface.str "firstId")],
            Event.findHook 1 [("_id", Iface.str "secondId")]]⟩ := by
  have hff : FirstFailure (readRepo [rewriteHook, failingHook, idleHook]).BeforeHooks.find
      firstIdFilter 1 (errorsNew "Hook failing") := by
    refine ⟨rfl, ?_⟩
    intro i hi
    have : i = 0 := by omega
    subst this
    rfl
  refine ⟨hff, ?_⟩
  have h := (first_failure_stops_every_operation
    (readRepo [rewriteHook, failingHook, idleHook]) 1 (errorsNew "Hook failing")).2.2.2.2.1
    firstIdFilter hff
  rw [h]
  simp [readRepo, noHooks, argsSeen, hookCalls, rewriteHook, failingHook, firstIdFilter, M.set]

/-! ## Succeeding chains of the read operations -/

theorem registered_find {T : Type} (hs : List (M T → M T × Option GoError)) :
    ∀ hooks : Hooks T, (hs.foldl Hooks.OnFind hooks).find = hooks.find ++ hs := by
  induction hs with
  | nil => intro hooks; simp
  | cons h rest ih => intro hooks; simp [ih, Hooks.OnFind]

theorem registered_findOne {T : Type} (hs : List (M T → M T × Option GoError)) :
    ∀ hooks : Hooks T, (hs.foldl Hooks.OnFindOne hooks).findOne = hooks.findOne ++ hs := by
  induction hs with
  | nil => intro hooks; simp
  | cons h rest ih => intro hooks; simp [ih, Hooks.OnFindOne]

theorem registered_count {T : Type} (hs : List (M T → M T × Option GoError)) :
    ∀ hooks : Hooks T, (hs.foldl Hooks.OnCount hooks).count = hooks.count ++ hs := by
  induction hs with
  | nil => intro hooks; simp
  | cons h rest ih => intro hooks; simp [ih, Hooks.OnCount]

/-- C2: registering `hs` with `OnFind` (`OnFindOne`, `OnCount`) one after the
other appends them to the chain in that order; and when every hook of the chain
succeeds, the call log of `Find` (`FindOne`, `CountDocuments`) on filter `f` is
the calls of all hooks in registration order, the first on `f` and each later
one on the filter its predecessor left, followed by the store call on the
filter the last hook left. -/
theorem read_chain_threads_filter {T : Type} (repo : Collection T) (f : M T) :
    ((∀ (hooks : Hooks T) (hs : List (M T → M T × Option GoError)),
        (hs.foldl Hooks.OnFind hooks).find = hooks.find ++ hs ∧
        (hs.foldl Hooks.OnFindOne hooks).findOne = hooks.findOne ++ hs ∧
        (hs.foldl Hooks.OnCount hooks).count = hooks.count ++ hs) ∧
      (∀ (hook : M T → M T × Option GoError) (rest : List (M T → M T × Option GoError)),
        argsSeen (hook :: rest) f = f :: argsSeen rest (hook f).1 ∧
        argsLeft (hook :: rest) f = argsLeft rest (hook f).1)) ∧
    (AllSucceed repo.BeforeHooks.find f →
      (repo.Find f).trace =
        hookCalls Event.findHook 0 (argsSeen repo.BeforeHooks.find f) ++
          [Event.storeFind (argsLeft repo.BeforeHooks.find f), Event.cursorAll]) ∧
    (AllSucceed repo.BeforeHooks.findOne f →
      (repo.FindOne f).trace =
        hookCalls Event.findOneHook 0 (argsSeen repo.BeforeHooks.findOne f) ++
          [Event.storeFindOne (argsLeft repo.BeforeHooks.findOne f), Event.singleResultDecode]) ∧
    (AllSucceed repo.BeforeHooks.count f →
      (repo.CountDocuments f).trace =
        hookCalls Event.countHook 0 (argsSeen repo.BeforeHooks.count f) ++
          [Event.storeCountDocuments (argsLeft repo.BeforeHooks.count f)]) := by
  refine ⟨⟨?_, ?_⟩, ?_, ?_, ?_⟩
  · intro hooks hs
    exact ⟨registered_find hs hooks, registered_findOne hs hooks, registered_count hs hooks⟩
  · intro hook rest
    exact ⟨rfl, rfl⟩
  · intro h
    have hr := runChain_of_allSucceed Event.findHook _ 0 f h
    simp only [Collection.Find, hr]
    rcases repo.collection.Find (argsLeft repo.BeforeHooks.find f) with ⟨csr, err⟩
    cases csr with
    | none => rfl
    | some c =>
      simp only
      rcases c.All [] with ⟨res, aerr⟩
      cases aerr <;> rfl
  · intro h
    have hr := runChain_of_allSucceed Event.findOneHook _ 0 f h
    simp only [Collection.FindOne, hr]
  · intro h
    have hr := runChain_of_allSucceed Event.countHook _ 0 f h
    simp only [Collection.CountDocuments, hr]

/-- C2 at the two hooks of `TestCollection_OnFind`, registered with `OnFind` in
their order: the first sees `firstId`, the second and the store see
`secondId`. -/
theorem read_chain_threads_filter_witness :
    AllSucceed ({ readRepo [] with
        BeforeHooks := (noHooks.OnFind rewriteHook).OnFind idleHook } :
          Collection TestDoc).BeforeHooks.find firstIdFilter ∧
      (({ readRepo [] with
        BeforeHooks := (noHooks.OnFind rewriteHook).OnFind idleHook } :
          Collection TestDoc).Find firstIdFilter).trace =
        [Event.findHook 0 [("_id", Iface.str "firstId")],
          Event.findHook 1 [("_id", Iface.str "secondId")],
          Event.storeFind [("_id", Iface.str "secondId")], Event.cursorAll] := by
  have hall : AllSucceed ({ readRepo [] with
      BeforeHooks := (noHooks.OnFind rewriteHook).OnFind idleHook } :
        Collection TestDoc).BeforeHooks.find firstIdFilter := by
    intro v hv
    simp [Hooks.OnFind, noHooks, verdicts, rewriteHook, idleHook] at hv
    exact hv
  refine ⟨hall, ?_⟩
  rw [(read_chain_threads_filter _ firstIdFilter).2.1 hall]
  simp [Hooks.OnFind, noHooks, argsSeen, argsLeft, hookCalls, rewriteHook, idleHook,
    firstIdFilter, M.set]

/-! ## DeleteOne -/

/-- C6: when the deleteOne chain succeeds and leaves filter `g`: a store delete
failing with `e` makes `DeleteOne` return `e`; a store delete succeeding with
deleted count 0 makes it return a non-nil error; one succeeding with deleted
count at least 1 makes it return nil.  And `DeleteOne` returns nil exactly when
every hook succeeded, the store call succeeded and the deleted count is at
least 1. -/
theorem deleteOne_outcome {T : Type} (repo : Collection T) (filter : M T) :
    (AllSucceed repo.BeforeHooks.deleteOne filter →
      (∀ res e, repo.collection.DeleteOne (argsLeft repo.BeforeHooks.deleteOne filter) =
          (res, some e) → (repo.DeleteOne filter).out = Outcome.ret () (some e)) ∧
      (repo.collection.DeleteOne (argsLeft repo.BeforeHooks.deleteOne filter) =
          (some ⟨0⟩, none) → ∃ e, (repo.DeleteOne filter).out = Outcome.ret () (some e)) ∧
      (∀ n : Int, 1 ≤ n →
        repo.collection.DeleteOne (argsLeft repo.BeforeHooks.deleteOne filter) =
          (some ⟨n⟩, none) → (repo.DeleteOne filter).out = Outcome.ret () none)) ∧
    ((repo.DeleteOne filter).out = Outcome.ret () none ↔
      AllSucceed repo.BeforeHooks.deleteOne filter ∧
        ∃ n : Int, 1 ≤ n ∧
          repo.collection.DeleteOne (argsLeft repo.BeforeHooks.deleteOne filter) =
            (some ⟨n⟩, none)) := by
  constructor
  · intro h
    have hr := runChain_of_allSucceed Event.deleteOneHook _ 0 filter h
    refine ⟨?_, ?_, ?_⟩
    · intro res e hs
      simp [Collection.DeleteOne, hr, hs]
    · intro hs
      exact ⟨errorsNew "could not delete", by simp [Collection.DeleteOne, hr, hs]⟩
    · intro n hn hs
      have : ¬ n < 1 := by omega
      simp [Collection.DeleteOne, hr, hs, this]
  · constructor
    · intro hout
      rcases hc : runChain Event.deleteOneHook repo.BeforeHooks.deleteOne 0 filter
        with ⟨g, err, log⟩
      cases err with
      | some e => simp [Collection.DeleteOne, hc] at hout
      | none =>
        have hall : AllSucceed repo.BeforeHooks.deleteOne filter :=
          allSucceed_of_runChain Event.deleteOneHook _ 0 filter (by rw [hc])
        have hr := runChain_of_allSucceed Event.deleteOneHook _ 0 filter hall
        refine ⟨hall, ?_⟩
        rcases hs : repo.collection.DeleteOne (argsLeft repo.BeforeHooks.deleteOne filter)
          with ⟨res, serr⟩
        cases serr with
        | some e => simp [Collection.DeleteOne, hr, hs] at hout
        | none =>
          cases res with
          | none => simp [Collection.DeleteOne, hr, hs] at hout
          | some r =>
            by_cases hlt : r.DeletedCount < 1
            · simp [Collection.DeleteOne, hr, hs, hlt] at hout
            · exact ⟨r.DeletedCount, by omega, rfl⟩
    · rintro ⟨hall, n, hn, hs⟩
      have hr := runChain_of_allSucceed Event.deleteOneHook _ 0 filter hall
      have : ¬ n < 1 := by omega
      simp [Collection.DeleteOne, hr, hs, this]

/-- C6 on the test collection without hooks: with one record deleted
`DeleteOne` returns nil, and the conditions of the equivalence hold. -/
theorem deleteOne_outcome_witness :
    (AllSucceed (readRepo []).BeforeHooks.deleteOne firstIdFilter ∧
      (1 : Int) ≤ 1 ∧
      (readRepo []).collection.DeleteOne
        (argsLeft (readRepo []).BeforeHooks.deleteOne firstIdFilter) = (some ⟨1⟩, none)) ∧
    ((readRepo []).DeleteOne firstIdFilter).out = Outcome.ret () none :=
  have hall : AllSucceed (readRepo []).BeforeHooks.deleteOne firstIdFilter := by
    intro v hv
    simp [readRepo, noHooks, verdicts] at hv
  ⟨⟨hall, le_refl 1, rfl⟩,
    ((deleteOne_outcome (readRepo []) firstIdFilter).1 hall).2.2 1 (le_refl 1) rfl⟩

/-! ## UpdateOne -/

/-- C7: when every hook of the updateOne chain succeeds, leaving filter `a.1`
and record `a.2`: a record type without `BeforeUpdate` gets no lifecycle call
and exactly one store `UpdateOne` on `a.1` with the update `$set: a.2`; a record
type with `BeforeUpdate` gets exactly one lifecycle call, on `a.2`, after the
chain; if that call fails with `e`, `UpdateOne` returns `e` and the log holds no
store call; if it succeeds the log ends with exactly one store `UpdateOne` on
`a.1` with the update `$set:` the record as `BeforeUpdate` left it.  In both
store cases the error returned is the error of the store answer, whatever the
result next to it. -/
theorem updateOne_pipeline {T : Type} (repo : Collection T) (filter : M T) (model : T)
    (hall : AllSucceed repo.BeforeHooks.updateOne (filter, model)) :
    (repo.doc.BeforeUpdate = none →
      repo.UpdateOne filter model =
        ⟨Outcome.ret ()
            (repo.collection.UpdateOne (argsLeft repo.BeforeHooks.updateOne (filter, model)).1
              [("$set", Iface.model (argsLeft repo.BeforeHooks.updateOne (filter, model)).2)]).2,
          hookCalls Event.updateOneHook 0 (argsSeen repo.BeforeHooks.updateOne (filter, model)) ++
            [Event.storeUpdateOne (argsLeft repo.BeforeHooks.updateOne (filter, model)).1
              [("$set", Iface.model (argsLeft repo.BeforeHooks.updateOne (filter, model)).2)]]⟩) ∧
    (∀ hook, repo.doc.BeforeUpdate = some hook →
      (∀ e, (hook (argsLeft repo.BeforeHooks.updateOne (filter, model)).2).2 = some e →
        repo.UpdateOne filter model =
          ⟨Outcome.ret () (some e),
            hookCalls Event.updateOneHook 0
                (argsSeen repo.BeforeHooks.updateOne (filter, model)) ++
              [Event.beforeUpdate (argsLeft repo.BeforeHooks.updateOne (filter, model)).2]⟩) ∧
      ((hook (argsLeft repo.BeforeHooks.updateOne (filter, model)).2).2 = none →
        repo.UpdateOne filter model =
          ⟨Outcome.ret ()
              (repo.collection.UpdateOne (argsLeft repo.BeforeHooks.updateOne (filter, model)).1
                [("$set", Iface.model
                  (hook (argsLeft repo.BeforeHooks.updateOne (filter, model)).2).1)]).2,
            hookCalls Event.updateOneHook 0
                (argsSeen repo.BeforeHooks.updateOne (filter, model)) ++
              [Event.beforeUpdate (argsLeft repo.BeforeHooks.updateOne (filter, model)).2,
                Event.storeUpdateOne (argsLeft repo.BeforeHooks.updateOne (filter, model)).1
                  [("$set", Iface.model
                    (hook (argsLeft repo.BeforeHooks.updateOne (filter, model)).2).1)]]⟩)) := by
  have hr := runChain_of_allSucceed Event.updateOneHook _ 0 (filter, model) hall
  refine ⟨?_, ?_⟩
  · intro hnone
    simp [Collection.UpdateOne, hr, Collection.updateStore, hnone]
  · intro hook hsome
    refine ⟨?_, ?_⟩
    · intro e he
      rcases hh : hook (argsLeft repo.BeforeHooks.updateOne (filter, model)).2 with ⟨m1, v⟩
      rw [hh] at he
      simp only at he
      subst he
      simp [Collection.UpdateOne, hr, Collection.updateStore, hsome, hh]
    · intro hn
      rcases hh : hook (argsLeft repo.BeforeHooks.updateOne (filter, model)).2 with ⟨m1, v⟩
      rw [hh] at hn
      simp only at hn
      subst hn
      simp [Collection.UpdateOne, hr, Collection.updateStore, hsome, hh]

/-- C7 on `updateRepo`, as in `TestBeforeUpdateHook` (`UpdateById` with the
empty identifier of a fresh record): chain hook, then `BeforeUpdate` once, then
one store update with the filter of the chain and the record of the hook. -/
theorem updateOne_pipeline_witness :
    AllSucceed updateRepo.BeforeHooks.updateOne
        ([("_id", Iface.str "")], (⟨"", "Test"⟩ : TestDoc)) ∧
      updateRepo.UpdateById "" ⟨"", "Test"⟩ =
        ⟨Outcome.ret () none,
          [Event.updateOneHook 0 ([("_id", Iface.str "")], ⟨"", "Test"⟩),
            Event.beforeUpdate ⟨"", "Test"⟩,
            Event.storeUpdateOne [("tenant", Iface.str "acme"), ("_id", Iface.str "")]
              [("$set", Iface.model ⟨"", "Test+"⟩)]]⟩ := by
  have hall : AllSucceed updateRepo.BeforeHooks.updateOne
      ([("_id", Iface.str "")], (⟨"", "Test"⟩ : TestDoc)) := by
    intro v hv
    simp [updateRepo, noHooks, verdicts, scopeHook] at hv
    exact hv
  refine ⟨hall, ?_⟩
  have h := ((updateOne_pipeline updateRepo [("_id", Iface.str "")] ⟨"", "Test"⟩ hall).2
    stampUpdate rfl).2 rfl
  rw [Collection.UpdateById, h]
  simp [updateRepo, noHooks, argsSeen, argsLeft, hookCalls, scopeHook, stampUpdate, M.set,
    okStore]

/-! ## Insert -/

theorem flatMap_pair_length {α β : Type} (f g : α → β) (l : List α) :
    (l.flatMap fun a => [f a, g a]).length = 2 * l.length := by
  induction l with
  | nil => rfl
  | cons a rest ih => simp [List.flatMap_cons, ih]; omega

theorem ObjectID.Hex_length (id : ObjectID) : id.Hex.length = 24 := by
  show (id.bytes.flatMap fun b => [hexDigit (b.val / 16), hexDigit (b.val % 16)]).length = 24
  rw [flatMap_pair_length, id.size]

theorem ObjectID.Hex_ne_empty (id : ObjectID) : id.Hex ≠ "" := by
  intro h
  have := id.Hex_length
  rw [h] at this
  simp at this

theorem sampleID_hex : sampleID.Hex = sampleHex := by
  decide

theorem assignedRecord_ne_empty {T : Type} (d : Document T) (hlaw : d.Lawful)
    (fresh : ObjectID) (model : T) : d.GetID (assignedRecord d fresh model) ≠ "" := by
  unfold assignedRecord
  split
  · rw [hlaw]
    exact fresh.Hex_ne_empty
  · assumption

theorem insertStore_trace {T : Type} (repo : Collection T) (model : T) (log : List (Event T)) :
    (repo.insertStore model log).trace = log ++ [Event.storeInsertOne model] := by
  unfold Collection.insertStore
  rcases repo.collection.InsertOne model with ⟨res, err⟩
  cases res with
  | none => rfl
  | some r =>
    simp only
    cases r.InsertedID <;> rfl

theorem insertStore_of_str {T : Type} (repo : Collection T) (model : T) (log : List (Event T))
    (res : InsertOneResult T) (err : Option GoError) (id : String)
    (hs : repo.collection.InsertOne model = (some res, err))
    (hid : res.InsertedID = Iface.str id) :
    repo.insertStore model log =
      ⟨Outcome.ret (repo.doc.SetID id model) err, log ++ [Event.storeInsertOne model]⟩ := by
  simp [Collection.insertStore, hs, hid]

theorem insertStore_of_nil {T : Type} (repo : Collection T) (model : T) (log : List (Event T))
    (err : Option GoError) (hs : repo.collection.InsertOne model = (none, err)) :
    repo.insertStore model log = ⟨Outcome.panic, log ++ [Event.storeInsertOne model]⟩ := by
  simp [Collection.insertStore, hs]

theorem insert_unfold {T : Type} (repo : Collection T) (fresh : ObjectID) (model : T) :
    repo.Insert fresh model =
      match repo.doc.BeforeInsert with
      | some hook =>
        match hook (assignedRecord repo.doc fresh model) with
        | (model1, some err) =>
          ⟨Outcome.ret model1 (some err), [Event.beforeInsert (assignedRecord repo.doc fresh model)]⟩
        | (model1, none) =>
          repo.insertStore model1 [Event.beforeInsert (assignedRecord repo.doc fresh model)]
      | none => repo.insertStore (assignedRecord repo.doc fresh model) [] :=
  rfl

/-- C3, as the code has it: for a record without identifier whose type has
`BeforeInsert`, when `BeforeInsert` fails with `e`, `Insert` makes no store call
(its log is the one lifecycle call), returns `e`, and returns the record as
`BeforeInsert` left it; the hook received the record with the freshly generated,
non-empty identifier, and the returned record carries that identifier when
`BeforeInsert` left the identifier as it was. -/
theorem insert_hook_failure {T : Type} (repo : Collection T) (hlaw : repo.doc.Lawful)
    (fresh : ObjectID) (model : T) (hook : T → T × Option GoError) (e : GoError)
    (hempty : repo.doc.GetID model = "")
    (hhook : repo.doc.BeforeInsert = some hook)
    (hfail : (hook (repo.doc.SetID fresh.Hex model)).2 = some e) :
    repo.Insert fresh model =
        ⟨Outcome.ret (hook (repo.doc.SetID fresh.Hex model)).1 (some e),
          [Event.beforeInsert (repo.doc.SetID fresh.Hex model)]⟩ ∧
      fresh.Hex ≠ "" ∧
      repo.doc.GetID (repo.doc.SetID fresh.Hex model) = fresh.Hex ∧
      (repo.doc.GetID (hook (repo.doc.SetID fresh.Hex model)).1 =
          repo.doc.GetID (repo.doc.SetID fresh.Hex model) →
        repo.doc.GetID (hook (repo.doc.SetID fresh.Hex model)).1 = fresh.Hex) := by
  refine ⟨?_, fresh.Hex_ne_empty, hlaw _ _, fun h => h.trans (hlaw _ _)⟩
  have ha : assignedRecord repo.doc fresh model = repo.doc.SetID fresh.Hex model := by
    simp [assignedRecord, hempty]
  rw [insert_unfold, hhook, ha]
  rcases hh : hook (repo.doc.SetID fresh.Hex model) with ⟨m1, v⟩
  rw [hh] at hfail
  simp only at hfail
  subst hfail
  simp [hh]

/-- C3 on a test record without identifier and the hook `refuseInsert`: the
record comes back with the generated identifier and the error of the hook. -/
theorem insert_hook_failure_witness :
    (insertRepo (some refuseInsert) (okStore 1)).Insert sampleID ⟨"", "Test"⟩ =
        ⟨Outcome.ret ⟨sampleHex, "Test"⟩ (some (errorsNew "refused")),
          [Event.beforeInsert ⟨sampleHex, "Test"⟩]⟩ ∧
      (refuseInsert ⟨sampleHex, "Test"⟩).1.ID = sampleHex := by
  have h := insert_hook_failure (insertRepo (some refuseInsert) (okStore 1))
    (fun _ _ => rfl) sampleID ⟨"", "Test"⟩ refuseInsert (errorsNew "refused") rfl rfl rfl
  refine ⟨?_, rfl⟩
  rw [h.1]
  simp [insertRepo, testDocument, refuseInsert, sampleID_hex]

/-- C3 fails as stated: with the hook `slugInsert` and a record without
identifier and without title, `BeforeInsert` fails, and the record `Insert`
returns has an empty identifier, not the generated one. -/
theorem slugInsert_drops_generated_identifier :
    (testDocument (some slugInsert) none).GetID ⟨"", ""⟩ = "" ∧
      (slugInsert ⟨sampleHex, ""⟩).2 = some (errorsNew "title required") ∧
      (insertRepo (some slugInsert) (okStore 1)).Insert sampleID ⟨"", ""⟩ =
        ⟨Outcome.ret ⟨"", ""⟩ (some (errorsNew "title required")),
          [Event.beforeInsert ⟨sampleHex, ""⟩]⟩ ∧
      ¬ ∃ r err, ((insertRepo (some slugInsert) (okStore 1)).Insert sampleID ⟨"", ""⟩).out =
          Outcome.ret r err ∧ r.ID = sampleID.Hex := by
  have hrun : (insertRepo (some slugInsert) (okStore 1)).Insert sampleID ⟨"", ""⟩ =
      ⟨Outcome.ret ⟨"", ""⟩ (some (errorsNew "title required")),
        [Event.beforeInsert ⟨sampleHex, ""⟩]⟩ := by
    decide
  refine ⟨rfl, rfl, hrun, ?_⟩
  rintro ⟨r, err, hout, hid⟩
  rw [hrun] at hout
  simp only [Outcome.ret.injEq] at hout
  obtain ⟨rfl, _⟩ := hout
  rw [sampleID_hex] at hid
  revert hid
  decide

theorem insert_panics_of_nil_result {T : Type} (repo : Collection T) (fresh : ObjectID)
    (model : T) (err : Option GoError) (hnone : repo.doc.BeforeInsert = none)
    (hs : repo.collection.InsertOne (assignedRecord repo.doc fresh model) = (none, err)) :
    (repo.Insert fresh model).out = Outcome.panic := by
  rw [insert_unfold, hnone]
  simp only
  rw [insertStore_of_nil repo _ _ err hs]

theorem find_panics_of_nil_cursor {T : Type} (repo : Collection T) (filter : M T)
    (err : Option GoError) (hall : AllSucceed repo.BeforeHooks.find filter)
    (hs : repo.collection.Find (argsLeft repo.BeforeHooks.find filter) = (none, err)) :
    (repo.Find filter).out = Outcome.panic := by
  have hr := runChain_of_allSucceed Event.findHook _ 0 filter hall
  simp [Collection.Find, hr, hs]

/-- C4 does not hold on the code: with a `BeforeInsert` that succeeds and a
store whose insert fails with `e` and a nil result, `Insert` reads
`res.InsertedID` through the nil pointer and panics after the store call; it
does not return `e`. -/
theorem insert_store_failure_panics :
    (stampInsert ⟨sampleHex, "Test"⟩).2 = none ∧
      (downStore (errorsNew "connection refused")).InsertOne ⟨sampleHex, "Test!"⟩ =
        (none, some (errorsNew "connection refused")) ∧
      (insertRepo (some stampInsert) (downStore (errorsNew "connection refused"))).Insert
          sampleID ⟨"", "Test"⟩ =
        ⟨Outcome.panic,
          [Event.beforeInsert ⟨sampleHex, "Test"⟩, Event.storeInsertOne ⟨sampleHex, "Test!"⟩]⟩ := by
  refine ⟨rfl, rfl, ?_⟩
  decide

/-- C5 does not hold on the code: with a find chain that succeeds and a store
whose find fails with `e` and a nil cursor, `Find` overwrites `e` unread, calls
`All` on the nil cursor and panics; it does not return `e`. -/
theorem find_store_failure_panics :
    AllSucceed (({ readRepo [rewriteHook] with
        collection := downStore (errorsNew "connection refused") } :
          Collection TestDoc).BeforeHooks.find) firstIdFilter ∧
      (downStore (errorsNew "connection refused")).Find [("_id", Iface.str "secondId")] =
        (none, some (errorsNew "connection refused")) ∧
      ({ readRepo [rewriteHook] with
        collection := downStore (errorsNew "connection refused") } :
          Collection TestDoc).Find firstIdFilter =
        ⟨Outcome.panic,
          [Event.findHook 0 [("_id", Iface.str "firstId")],
            Event.storeFind [("_id", Iface.str "secondId")], Event.cursorAll]⟩ := by
  refine ⟨?_, rfl, ?_⟩
  · intro v hv
    simp [readRepo, noHooks, verdicts, rewriteHook] at hv
    exact hv
  · decide

/-- C8, as the code has it: a record arriving without identifier is given the
freshly generated, non-empty identifier before `BeforeInsert` and the store are
called.  The record `Insert` returns has a non-empty identifier when
`BeforeInsert` fails having left a non-empty identifier, and when the store is
called (no `BeforeInsert`, or one that succeeded) and answers with a result
whose `InsertedID` is a non-empty string: the returned record carries that
`InsertedID`. -/
theorem insert_returns_identified_record {T : Type} (repo : Collection T)
    (hlaw : repo.doc.Lawful) (fresh : ObjectID) (model : T)
    (hempty : repo.doc.GetID model = "") :
    (fresh.Hex ≠ "" ∧ repo.doc.GetID (repo.doc.SetID fresh.Hex model) = fresh.Hex) ∧
    (repo.doc.BeforeInsert = none →
      ∀ res err id, repo.collection.InsertOne (repo.doc.SetID fresh.Hex model) = (some res, err) →
        res.InsertedID = Iface.str id → id ≠ "" →
        ∃ r, (repo.Insert fresh model).out = Outcome.ret r err ∧ repo.doc.GetID r = id ∧
          repo.doc.GetID r ≠ "") ∧
    (∀ hook, repo.doc.BeforeInsert = some hook →
      (∀ e, (hook (repo.doc.SetID fresh.Hex model)).2 = some e →
        repo.doc.GetID (hook (repo.doc.SetID fresh.Hex model)).1 ≠ "" →
        ∃ r, (repo.Insert fresh model).out = Outcome.ret r (some e) ∧ repo.doc.GetID r ≠ "") ∧
      ((hook (repo.doc.SetID fresh.Hex model)).2 = none →
        ∀ res err id,
          repo.collection.InsertOne (hook (repo.doc.SetID fresh.Hex model)).1 = (some res, err) →
          res.InsertedID = Iface.str id → id ≠ "" →
          ∃ r, (repo.Insert fresh model).out = Outcome.ret r err ∧ repo.doc.GetID r = id ∧
            repo.doc.GetID r ≠ "")) := by
  have ha : assignedRecord repo.doc fresh model = repo.doc.SetID fresh.Hex model := by
    simp [assignedRecord, hempty]
  refine ⟨⟨fresh.Hex_ne_empty, hlaw _ _⟩, ?_, ?_⟩
  · intro hnone res err id hs hid hne
    refine ⟨repo.doc.SetID id (repo.doc.SetID fresh.Hex model), ?_, hlaw _ _, ?_⟩
    · rw [insert_unfold, hnone, ha]
      simp only
      rw [insertStore_of_str repo _ _ res err id hs hid]
    · rw [hlaw]; exact hne
  · intro hook hhook
    refine ⟨?_, ?_⟩
    · intro e hfail hkeep
      refine ⟨(hook (repo.doc.SetID fresh.Hex model)).1, ?_, hkeep⟩
      rw [insert_unfold, hhook, ha]
      rcases hh : hook (repo.doc.SetID fresh.Hex model) with ⟨m1, v⟩
      rw [hh] at hfail
      simp only at hfail
      subst hfail
      simp [hh]
    · intro hok res err id hs hid hne
      refine ⟨repo.doc.SetID id (hook (repo.doc.SetID fresh.Hex model)).1, ?_, hlaw _ _, ?_⟩
      · rw [insert_unfold, hhook, ha]
        rcases hh : hook (repo.doc.SetID fresh.Hex model) with ⟨m1, v⟩
        rw [hh] at hok hs
        simp only at hok hs
        subst hok
        simp only [hh]
        rw [insertStore_of_str repo _ _ res err id hs hid]
      · rw [hlaw]; exact hne

/-- C8 on a test record without identifier, without `BeforeInsert`, over the
accepting store: the returned record carries the generated identifier. -/
theorem insert_returns_identified_record_witness :
    (testDocument none none).GetID ⟨"", "Test"⟩ = "" ∧
      ∃ r, ((insertRepo none (okStore 1)).Insert sampleID ⟨"", "Test"⟩).out =
          Outcome.ret r none ∧
        (insertRepo none (okStore 1)).doc.GetID r = sampleID.Hex ∧
        (insertRepo none (okStore 1)).doc.GetID r ≠ "" :=
  ⟨rfl, (insert_returns_identified_record (insertRepo none (okStore 1)) (fun _ _ => rfl)
    sampleID ⟨"", "Test"⟩ rfl).2.1 rfl ⟨Iface.str sampleID.Hex⟩ none sampleID.Hex rfl rfl
    sampleID.Hex_ne_empty⟩

/-- C8 fails as stated: with the hook `rejectInsert`, which clears the
identifier and refuses the record, `Insert` returns a record with an empty
identifier; over a store whose insert fails with a nil result, `Insert` panics
and returns no record at all; and with the hook `draftInsert`, which clears the
identifier and accepts the record, the store reports the empty `_id` it was
handed and `Insert` returns a record with that empty identifier. -/
theorem rejectInsert_returns_empty_identifier :
    ((testDocument (some rejectInsert) none).GetID ⟨"", "Test"⟩ = "" ∧
      (insertRepo (some rejectInsert) (okStore 1)).Insert sampleID ⟨"", "Test"⟩ =
        ⟨Outcome.ret ⟨"", "Test"⟩ (some (errorsNew "rejected")),
          [Event.beforeInsert ⟨sampleHex, "Test"⟩]⟩ ∧
      ¬ ∃ r err, ((insertRepo (some rejectInsert) (okStore 1)).Insert sampleID ⟨"", "Test"⟩).out =
          Outcome.ret r err ∧ r.ID ≠ "") ∧
    ((insertRepo none (downStore (errorsNew "no reachable servers"))).Insert sampleID
        ⟨"", "Test"⟩ =
        ⟨Outcome.panic, [Event.storeInsertOne ⟨sampleHex, "Test"⟩]⟩ ∧
      ¬ ∃ r err, ((insertRepo none (downStore (errorsNew "no reachable servers"))).Insert
          sampleID ⟨"", "Test"⟩).out = Outcome.ret r err ∧ r.ID ≠ "") ∧
    ((insertRepo (some draftInsert) (okStore 1)).Insert sampleID ⟨"", "Test"⟩ =
        ⟨Outcome.ret ⟨"", "Test"⟩ none,
          [Event.beforeInsert ⟨sampleHex, "Test"⟩, Event.storeInsertOne ⟨"", "Test"⟩]⟩ ∧
      ¬ ∃ r err, ((insertRepo (some draftInsert) (okStore 1)).Insert sampleID
          ⟨"", "Test"⟩).out = Outcome.ret r err ∧ r.ID ≠ "") := by
  have h1 : (insertRepo (some rejectInsert) (okStore 1)).Insert sampleID ⟨"", "Test"⟩ =
      ⟨Outcome.ret ⟨"", "Test"⟩ (some (errorsNew "rejected")),
        [Event.beforeInsert ⟨sampleHex, "Test"⟩]⟩ := by
    decide
  have h2 : (insertRepo none (downStore (errorsNew "no reachable servers"))).Insert sampleID
      ⟨"", "Test"⟩ = ⟨Outcome.panic, [Event.storeInsertOne ⟨sampleHex, "Test"⟩]⟩ := by
    decide
  have h3 : (insertRepo (some draftInsert) (okStore 1)).Insert sampleID ⟨"", "Test"⟩ =
      ⟨Outcome.ret ⟨"", "Test"⟩ none,
        [Event.beforeInsert ⟨sampleHex, "Test"⟩, Event.storeInsertOne ⟨"", "Test"⟩]⟩ := by
    decide
  refine ⟨⟨rfl, h1, ?_⟩, ⟨h2, ?_⟩, h3, ?_⟩
  · rintro ⟨r, err, hout, hid⟩
    rw [h1] at hout
    simp only [Outcome.ret.injEq] at hout
    obtain ⟨rfl, _⟩ := hout
    exact hid rfl
  · rintro ⟨r, err, hout, _⟩
    rw [h2] at hout
    cases hout
  · rintro ⟨r, err, hout, hid⟩
    rw [h3] at hout
    simp only [Outcome.ret.injEq] at hout
    obtain ⟨rfl, _⟩ := hout
    exact hid rfl

/-- C9, as the code has it: for every record, when `BeforeInsert` is absent, or
when it succeeds leaving a non-empty identifier on the record it was handed,
every record `Insert` hands to the store's insert has a non-empty identifier
(the one the caller set, the generated one, or the one the hook left). -/
theorem insert_store_record_identified {T : Type} (repo : Collection T)
    (hlaw : repo.doc.Lawful) (fresh : ObjectID) (model : T)
    (hkeep : ∀ hook, repo.doc.BeforeInsert = some hook →
      (hook (assignedRecord repo.doc fresh model)).2 = none →
      repo.doc.GetID (hook (assignedRecord repo.doc fresh model)).1 ≠ "") :
    ∀ m, Event.storeInsertOne m ∈ (repo.Insert fresh model).trace → repo.doc.GetID m ≠ "" := by
  intro m hm
  rw [insert_unfold] at hm
  cases hb : repo.doc.BeforeInsert with
  | none =>
    rw [hb] at hm
    simp only [insertStore_trace, List.nil_append, List.mem_singleton,
      Event.storeInsertOne.injEq] at hm
    subst hm
    exact assignedRecord_ne_empty repo.doc hlaw fresh model
  | some hook =>
    rw [hb] at hm
    have hk := hkeep hook hb
    rcases hh : hook (assignedRecord repo.doc fresh model) with ⟨m1, v⟩
    simp only [hh] at hm
    rw [hh] at hk
    cases v with
    | some e => simp at hm
    | none =>
      simp only [insertStore_trace, List.singleton_append, List.mem_cons, List.mem_singleton,
        Event.storeInsertOne.injEq, List.not_mem_nil, or_false] at hm
      rcases hm with hm | hm
      · cases hm
      · subst hm
        exact hk rfl

/-- C9 on a test record without identifier and the hook `stampInsert`: the store
call is issued, on a record that carries the generated identifier. -/
theorem insert_store_record_identified_witness :
    Event.storeInsertOne ⟨sampleHex, "Test!"⟩ ∈
        ((insertRepo (some stampInsert) (okStore 1)).Insert sampleID ⟨"", "Test"⟩).trace ∧
      (insertRepo (some stampInsert) (okStore 1)).doc.GetID ⟨sampleHex, "Test!"⟩ ≠ "" :=
  have hin : Event.storeInsertOne ⟨sampleHex, "Test!"⟩ ∈
      ((insertRepo (some stampInsert) (okStore 1)).Insert sampleID ⟨"", "Test"⟩).trace := by
    decide
  ⟨hin, insert_store_record_identified (insertRepo (some stampInsert) (okStore 1))
    (fun _ _ => rfl) sampleID ⟨"", "Test"⟩
    (by
      intro hook hhook _
      have hs : stampInsert = hook := Option.some.inj hhook
      subst hs
      decide)
    ⟨sampleHex, "Test!"⟩ hin⟩

/-- C9 fails as stated: with the hook `draftInsert`, which clears the identifier
and succeeds, `Insert` hands the store a record with an empty identifier, even
for a record that arrived with the identifier `abc`. -/
theorem draftInsert_stores_empty_identifier :
    ((insertRepo (some draftInsert) (okStore 1)).Insert sampleID ⟨"abc", "Test"⟩).trace =
        [Event.beforeInsert ⟨"abc", "Test"⟩, Event.storeInsertOne ⟨"", "Test"⟩] ∧
      ¬ ∀ m, Event.storeInsertOne m ∈
          ((insertRepo (some draftInsert) (okStore 1)).Insert sampleID ⟨"abc", "Test"⟩).trace →
        (insertRepo (some draftInsert) (okStore 1)).doc.GetID m ≠ "" := by
  have ht : ((insertRepo (some draftInsert) (okStore 1)).Insert sampleID ⟨"abc", "Test"⟩).trace =
      [Event.beforeInsert ⟨"abc", "Test"⟩, Event.storeInsertOne ⟨"", "Test"⟩] := by
    decide
  refine ⟨ht, ?_⟩
  intro h
  exact h ⟨"", "Test"⟩ (by rw [ht]; simp) rfl

/-- C10, as the code has it: for a record whose type has `BeforeInsert`, the
call log of `Insert` holds exactly one `BeforeInsert` call, as its first entry,
on the record after identifier assignment, whose identifier is non-empty (the
generated one when the record arrived without identifier); the store insert,
when issued, is the entry after it.  When the hook returns nil and the store
insert succeeds with a result whose `InsertedID` is a string, `Insert` returns
a nil error, and the record it returns carries that `InsertedID`. -/
theorem insert_lifecycle_order {T : Type} (repo : Collection T) (hlaw : repo.doc.Lawful)
    (fresh : ObjectID) (model : T) (hook : T → T × Option GoError)
    (hhook : repo.doc.BeforeInsert = some hook) :
    repo.doc.GetID (assignedRecord repo.doc fresh model) ≠ "" ∧
    (repo.doc.GetID model = "" →
      repo.doc.GetID (assignedRecord repo.doc fresh model) = fresh.Hex) ∧
    (repo.doc.GetID model ≠ "" → assignedRecord repo.doc fresh model = model) ∧
    (∀ e, (hook (assignedRecord repo.doc fresh model)).2 = some e →
      (repo.Insert fresh model).trace = [Event.beforeInsert (assignedRecord repo.doc fresh model)]) ∧
    ((hook (assignedRecord repo.doc fresh model)).2 = none →
      (repo.Insert fresh model).trace =
          [Event.beforeInsert (assignedRecord repo.doc fresh model),
            Event.storeInsertOne (hook (assignedRecord repo.doc fresh model)).1] ∧
        ∀ id, repo.collection.InsertOne (hook (assignedRecord repo.doc fresh model)).1 =
            (some ⟨Iface.str id⟩, none) →
          (repo.Insert fresh model).out =
            Outcome.ret (repo.doc.SetID id (hook (assignedRecord repo.doc fresh model)).1)
              none) := by
  refine ⟨assignedRecord_ne_empty repo.doc hlaw fresh model, ?_, ?_, ?_, ?_⟩
  · intro hempty
    simp [assignedRecord, hempty, hlaw _ _]
  · intro hne
    simp [assignedRecord, hne]
  · intro e hfail
    rw [insert_unfold, hhook]
    rcases hh : hook (assignedRecord repo.doc fresh model) with ⟨m1, v⟩
    rw [hh] at hfail
    simp only at hfail
    subst hfail
    simp [hh]
  · intro hok
    rw [insert_unfold, hhook]
    rcases hh : hook (assignedRecord repo.doc fresh model) with ⟨m1, v⟩
    rw [hh] at hok
    simp only at hok
    subst hok
    refine ⟨?_, ?_⟩
    · simp [hh, insertStore_trace]
    · intro id hs
      simp only [hh]
      rw [insertStore_of_str repo _ _ ⟨Iface.str id⟩ none id hs rfl]

/-- C10 as in `TestBeforeInsertHook`: a test record without identifier, a
`BeforeInsert` that returns nil, the accepting store: the hook is called once,
on the record with the generated identifier, before the store insert, and
`Insert` returns a nil error. -/
theorem insert_lifecycle_order_witness :
    (insertRepo (some stampInsert) (okStore 1)).doc.BeforeInsert = some stampInsert ∧
      ((insertRepo (some stampInsert) (okStore 1)).Insert sampleID ⟨"", "Test"⟩).trace =
        [Event.beforeInsert ⟨sampleHex, "Test"⟩, Event.storeInsertOne ⟨sampleHex, "Test!"⟩] ∧
      ((insertRepo (some stampInsert) (okStore 1)).Insert sampleID ⟨"", "Test"⟩).out =
        Outcome.ret ⟨sampleHex, "Test!"⟩ none := by
  have h := (insert_lifecycle_order (insertRepo (some stampInsert) (okStore 1))
    (fun _ _ => rfl) sampleID ⟨"", "Test"⟩ stampInsert rfl).2.2.2.2 rfl
  refine ⟨rfl, ?_, ?_⟩
  · rw [h.1]
    decide
  · rw [h.2 sampleHex (by decide)]
    decide

/-- C10 fails as stated: with the hook `stampInsert`, which returns nil, and a
store whose insert succeeds (a result, nil error) reporting an `ObjectID` as
`InsertedID`, the assertion `res.InsertedID.(string)` panics after the store
call: `Insert` returns no error value at all, nil or otherwise. -/
theorem stampInsert_minted_identifier_panics :
    (stampInsert ⟨sampleHex, "Test"⟩).2 = none ∧
      mintingStore.InsertOne ⟨sampleHex, "Test!"⟩ =
        (some ⟨Iface.objectID sampleBytes⟩, none) ∧
      (insertRepo (some stampInsert) mintingStore).Insert sampleID ⟨"", "Test"⟩ =
        ⟨Outcome.panic,
          [Event.beforeInsert ⟨sampleHex, "Test"⟩, Event.storeInsertOne ⟨sampleHex, "Test!"⟩]⟩ ∧
      ¬ ∃ r, ((insertRepo (some stampInsert) mintingStore).Insert sampleID ⟨"", "Test"⟩).out =
          Outcome.ret r none := by
  have hrun : (insertRepo (some stampInsert) mintingStore).Insert sampleID ⟨"", "Test"⟩ =
      ⟨Outcome.panic,
        [Event.beforeInsert ⟨sampleHex, "Test"⟩, Event.storeInsertOne ⟨sampleHex, "Test!"⟩]⟩ := by
    decide
  refine ⟨rfl, rfl, hrun, ?_⟩
  rintro ⟨r, hout⟩
  rw [hrun] at hout
  cases hout

end Colt
